import Mathlib

/-!
Shallow embedding of the memory-aware parallel batch scheduler of
heif2jpeg.cpp, together with proofs settling the frozen claims about it.

Modelling conventions:
* Filesystem and codec effects are an oracle record `Env`: each field is the
  observable answer of one external call (fs::exists, heif probe, decode,
  encode, ...).  The oracle is deterministic, matching a filesystem and codec
  that do not change behind the program during a run except through the
  program writing its own outputs (threaded through `Env.after_file`).
* `fs::path::extension()` is path plumbing excluded from the core, so a path
  carries its extension as a field (`Path.ext`).
* Machine integers are modelled as `Nat`; the relevant quantities (counters,
  sizes in MB, dimensions) are non-negative and far from overflow in every
  claim considered.
* `std::priority_queue<ImageJob>` with `ImageJob::operator<`
  (`a < b  iff  a.estimated_memory_mb > b.estimated_memory_mb`) pops a
  maximal element w.r.t. `<`, i.e. a job of minimal estimated cost; the heap
  internal tie order is unspecified, the model resolves ties to the earliest
  queued job.  Pops are serialized by `queue_mutex` and depend only on the
  queue content, so the global pop sequence is the same for every worker
  interleaving; the run is modelled as that sequence.
-/

set_option linter.unusedVariables false

namespace Heif2Jpeg

/-- A filesystem path, carrying the extension that `fs::path::extension()`
would report for it. -/
structure Path where
  str : String
  ext : String
deriving DecidableEq

/-- The three per-job outcomes tallied by the batch processor. -/
inductive Outcome where
  | success
  | failed
  | skipped
deriving DecidableEq

/-- `ImageJob` (heif2jpeg.cpp lines 178-187): one queued conversion with its
precomputed memory estimate. -/
structure ImageJob where
  input_path : Path
  output_path : Path
  estimated_memory_mb : Nat
deriving DecidableEq

/-- `ImageJob::operator<` (lines 184-186): reversed comparison on
`estimated_memory_mb`, so that the max-heap `std::priority_queue` yields the
smallest estimate first. -/
def ImageJob.lt (a b : ImageJob) : Bool :=
  a.estimated_memory_mb > b.estimated_memory_mb

/-- Oracle for the external calls made while processing jobs.  `probe_dims`
is the combined result of `heif_context_read_from_file` plus
`heif_context_get_primary_image_handle` plus the two dimension getters:
`none` when opening the file or obtaining the primary handle fails, otherwise
the reported `(width, height)`.  `encoded` gives the bytes a successful
conversion of a source at a given quality writes to the destination. -/
structure Env where
  file_exists : Path → Bool
  is_regular_file : Path → Bool
  content : Path → Nat
  probe_dims : Path → Option (Nat × Nat)
  decode_ok : Path → Bool
  plane_ok : Path → Bool
  create_dir_ok : Bool
  fopen_ok : Path → Bool
  encode_ok : Path → Bool
  encoded : Path → Nat → Nat

/-- Cost formula of `estimate_memory_requirement` (lines 240-253) for
readable dimensions: the source computes
`ceil((w*h*3 + w*h*4 + 10*1024*1024) * 1.5 / (1024*1024))` in `double`;
multiplying an integer by 1.5 and dividing by the power of two `1024*1024`
are exact in `double` for every magnitude below `2^52`, so the embedding uses
the exact real ceiling, written as the `Nat` ceiling division of three times
the byte total by `2*1024*1024`. -/
def estimate_from_dims (width height : Nat) : Nat :=
  let rgb_memory := width * height * 3
  let jpeg_memory := width * height * 4
  let overhead_memory := 10 * 1024 * 1024
  (3 * (rgb_memory + jpeg_memory + overhead_memory) + (2 * (1024 * 1024) - 1))
    / (2 * (1024 * 1024))

/-- `estimate_memory_requirement` (lines 215-259): returns `0` when the file
cannot be opened or the primary image handle cannot be obtained, otherwise
the cost formula on the reported dimensions. -/
def estimate_memory_requirement (env : Env) (image_path : Path) : Nat :=
  match env.probe_dims image_path with
  | none => 0
  | some (w, h) => estimate_from_dims w h

/-- The distinct early-return reasons of `convert_heif_to_jpeg`
(lines 283-437), in source order.  `read_or_handle` covers both a failing
`heif_context_read_from_file` and a failing primary-handle lookup. -/
inductive ConvFail where
  | dimension
  | mem_budget
  | read_or_handle
  | decode
  | pixel_data
  | mkdir
  | open_output
  | encode
deriving DecidableEq

/-- Result of one `convert_heif_to_jpeg` call: `reason = none` means success;
`decoded` records whether `heif_decode_image` was reached, `wrote` whether
the destination file was opened for writing (`fopen "wb"`). -/
structure ConvResult where
  reason : Option ConvFail
  decoded : Bool
  wrote : Bool
deriving DecidableEq

def ConvResult.ok (r : ConvResult) : Bool :=
  r.reason.isNone

/-- Dimension pre-check of `convert_heif_to_jpeg` (lines 290-300): only
performed when the dimensions are readable; unreadable dimensions fall
through without failing. -/
def dims_exceed (max_width max_height : Nat) (dims : Option (Nat × Nat)) : Bool :=
  match dims with
  | some (w, h) =>
      (decide (0 < max_width) && decide (max_width < w))
        || (decide (0 < max_height) && decide (max_height < h))
  | none => false

/-- `convert_heif_to_jpeg` (lines 283-437), at the granularity of its
early-return structure: dimension pre-check, then the advisory-memory check
(re-running the estimator, only when `max_memory_mb > 0`), then read/handle,
decode, pixel-plane, output-directory, output-open and encode stages. -/
def convert_heif_to_jpeg (env : Env) (heif_path jpeg_path : Path) (quality : Nat)
    (max_width max_height max_memory_mb : Nat) : ConvResult :=
  if ((0 < max_width) || (0 < max_height))
      && dims_exceed max_width max_height (env.probe_dims heif_path) then
    ⟨some ConvFail.dimension, false, false⟩
  else if (0 < max_memory_mb)
      && (max_memory_mb < estimate_memory_requirement env heif_path) then
    ⟨some ConvFail.mem_budget, false, false⟩
  else
    match env.probe_dims heif_path with
    | none => ⟨some ConvFail.read_or_handle, false, false⟩
    | some _ =>
      if !env.decode_ok heif_path then ⟨some ConvFail.decode, true, false⟩
      else if !env.plane_ok heif_path then ⟨some ConvFail.pixel_data, true, false⟩
      else if !env.create_dir_ok then ⟨some ConvFail.mkdir, true, false⟩
      else if !env.fopen_ok jpeg_path then ⟨some ConvFail.open_output, true, false⟩
      else if !env.encode_ok heif_path then ⟨some ConvFail.encode, true, true⟩
      else ⟨none, true, true⟩

/-- Lowercasing done by `std::transform(..., ::tolower)` on the extension
(line 457); ASCII only, matching `Char.toLower` applied to every character
(written over the character list so that it evaluates by kernel
reduction). -/
def lower_ext (ext : String) : String :=
  String.mk (ext.data.map Char.toLower)

/-- The extension test of `process_file` (line 458): recognized input types
are `.heic` and `.heif`, case-insensitively. -/
def is_heif_ext (ext : String) : Bool :=
  lower_ext ext == ".heic" || lower_ext ext == ".heif"

/-- Result of one `process_file` call: the counter it bumped, whether
`convert_heif_to_jpeg` was invoked, and the conversion result if so. -/
structure ProcResult where
  outcome : Outcome
  convert_invoked : Bool
  conv : Option ConvResult
deriving DecidableEq

/-- `process_file` (lines 440-477): existence check, regular-file check,
extension check, destination-overwrite check, then the conversion; each
failing check records exactly one outcome and returns. -/
def process_file (env : Env) (input_path output_path : Path) (quality : Nat)
    (force_overwrite : Bool) (max_width max_height max_memory_mb : Nat) : ProcResult :=
  if !env.file_exists input_path then
    ⟨Outcome.failed, false, none⟩
  else if !env.is_regular_file input_path then
    ⟨Outcome.failed, false, none⟩
  else if !is_heif_ext input_path.ext then
    ⟨Outcome.skipped, false, none⟩
  else if env.file_exists output_path && !force_overwrite then
    ⟨Outcome.skipped, false, none⟩
  else
    let r := convert_heif_to_jpeg env input_path output_path quality
      max_width max_height max_memory_mb
    ⟨if r.ok then Outcome.success else Outcome.failed, true, some r⟩

/-- Effect of a successful output-open on the modelled filesystem: the
destination now exists and holds the encoder output for the source. -/
def Env.write_output (env : Env) (jpeg_path : Path) (bytes : Nat) : Env :=
  { env with
    file_exists := fun p => if p = jpeg_path then true else env.file_exists p,
    content := fun p => if p = jpeg_path then bytes else env.content p }

/-- Filesystem state after one `process_file` call: unchanged unless the
conversion opened the destination for writing. -/
def Env.after_file (env : Env) (input_path output_path : Path) (quality : Nat)
    (r : ProcResult) : Env :=
  match r.conv with
  | none => env
  | some cr =>
      if cr.wrote then env.write_output output_path (env.encoded input_path quality)
      else env

/-- The three outcome counters of `BatchProcessor` (lines 485-487). -/
structure Counters where
  success_count : Nat
  fail_count : Nat
  skip_count : Nat
deriving DecidableEq

/-- The atomic increment performed at each outcome (lines 446, 451, 460,
467, 473, 475). -/
def Counters.record (c : Counters) : Outcome → Counters
  | Outcome.success => { c with success_count := c.success_count + 1 }
  | Outcome.failed => { c with fail_count := c.fail_count + 1 }
  | Outcome.skipped => { c with skip_count := c.skip_count + 1 }

/-- Configuration part of `BatchProcessor` (lines 488-493). -/
structure BatchProcessor where
  quality : Nat
  force_overwrite : Bool
  max_width : Nat
  max_height : Nat
  memory_per_thread_mb : Nat
  thread_count : Nat
deriving DecidableEq

/-- The per-worker ceiling computed in the `BatchProcessor` constructor
(line 501): `std::max(100UL, memory_budget_mb / thread_count)`. -/
def per_worker_ceiling (memory_budget_mb thread_count : Nat) : Nat :=
  max 100 (memory_budget_mb / thread_count)

/-- The `BatchProcessor` constructor (lines 496-502). -/
def BatchProcessor.make (quality : Nat) (force_overwrite : Bool)
    (max_width max_height memory_budget_mb thread_count : Nat) : BatchProcessor :=
  ⟨quality, force_overwrite, max_width, max_height,
    per_worker_ceiling memory_budget_mb thread_count, thread_count⟩

/-- The job built by `BatchProcessor::add_job` (lines 504-511): the estimate
is computed once, at enqueue time. -/
def mkJob (env : Env) (input_path output_path : Path) : ImageJob :=
  ⟨input_path, output_path, estimate_memory_requirement env input_path⟩

/-- `add_job` (lines 504-511) as a queue-content transformer. -/
def add_job (env : Env) (queue : List ImageJob) (input_path output_path : Path) :
    List ImageJob :=
  queue ++ [mkJob env input_path output_path]

/-- The combined `top`+`pop` of `std::priority_queue<ImageJob>` under
`queue_mutex` (lines 534-541): removes and returns a job of minimal
`estimated_memory_mb` (ties resolved to the earliest queued job), or `none`
on the empty queue (the worker termination signal). -/
def popMin : List ImageJob → Option (ImageJob × List ImageJob)
  | [] => none
  | j :: rest =>
    match popMin rest with
    | none => some (j, [])
    | some (m, rest2) =>
      if j.estimated_memory_mb ≤ m.estimated_memory_mb then some (j, rest)
      else some (m, j :: rest2)

/-- One worker loop iteration after a successful pop (lines 543-559): both
branches of the ceiling comparison call `process_file` once with
`memory_per_thread_mb` as the advisory limit; the branches differ only in
the warning log line. -/
structure TraceEntry where
  job : ImageJob
  advisory_limit_mb : Nat
  result : ProcResult
deriving DecidableEq

def worker_step (p : BatchProcessor) (env : Env) (job : ImageJob) : TraceEntry :=
  if job.estimated_memory_mb > p.memory_per_thread_mb then
    ⟨job, p.memory_per_thread_mb,
      process_file env job.input_path job.output_path p.quality p.force_overwrite
        p.max_width p.max_height p.memory_per_thread_mb⟩
  else
    ⟨job, p.memory_per_thread_mb,
      process_file env job.input_path job.output_path p.quality p.force_overwrite
        p.max_width p.max_height p.memory_per_thread_mb⟩

/-- The worker drain loop (lines 529-561) over the popped-job sequence.
Each pop removes exactly one job, so `queue.length` steps of fuel drain the
queue completely; `process_all` supplies exactly that. -/
def run_aux (p : BatchProcessor) : Nat → Env → List ImageJob → List TraceEntry × Env
  | 0, env, _ => ([], env)
  | Nat.succ fuel, env, queue =>
    match popMin queue with
    | none => ([], env)
    | some (job, rest) =>
      let e := worker_step p env job
      let r := run_aux p fuel
        (Env.after_file env job.input_path job.output_path p.quality e.result) rest
      (e :: r.1, r.2)

/-- `process_all` (lines 513-527): drives workers until the queue is
drained; pops are serialized and deterministic, so the trace is the
interleaving-independent global sequence. -/
def process_all (p : BatchProcessor) (env : Env) (queue : List ImageJob) :
    List TraceEntry × Env :=
  run_aux p queue.length env queue

/-- Folding the per-outcome increments over a trace, starting from the
zero-initialized counters (lines 485-487). -/
def countOutcomes (tr : List TraceEntry) : Counters :=
  tr.foldl (fun c e => c.record e.result.outcome) ⟨0, 0, 0⟩

/-- The final statement of `main` (line 807):
`return (processor.get_fail_count() > 0) ? 1 : 0`. -/
def main_exit_code (c : Counters) : Nat :=
  if c.fail_count > 0 then 1 else 0

/-- A single-worker configuration with a 1000 MB budget. -/
def pOne : BatchProcessor := BatchProcessor.make 95 false 0 0 1000 1

/-- A single-worker configuration with a 0 MB budget (the value the spec
calls unbounded). -/
def pZero : BatchProcessor := BatchProcessor.make 95 false 0 0 0 1

def inBig : Path := ⟨"big.heic", ".heic"⟩

def outBig : Path := ⟨"big.jpg", ".jpg"⟩

def txtIn : Path := ⟨"d.txt", ".txt"⟩

/-- Oracle: only `inBig` exists, a readable 10000x10000 image; every
downstream stage succeeds. -/
def envBig : Env :=
  ⟨fun p => decide (p = inBig), fun _ => true, fun _ => 0,
    fun p => if p = inBig then some (10000, 10000) else none,
    fun _ => true, fun _ => true, true, fun _ => true, fun _ => true,
    fun _ _ => 1⟩

/-- Oracle: like `envBig` but the destination `outBig` already exists. -/
def envBigDest : Env :=
  ⟨fun p => decide (p = inBig) || decide (p = outBig), fun _ => true, fun _ => 0,
    fun p => if p = inBig then some (10000, 10000) else none,
    fun _ => true, fun _ => true, true, fun _ => true, fun _ => true,
    fun _ _ => 1⟩

/-- Oracle: `txtIn` does not exist, `outBig` does. -/
def envMissing : Env :=
  ⟨fun p => decide (p = outBig), fun _ => true, fun _ => 0, fun _ => none,
    fun _ => true, fun _ => true, true, fun _ => true, fun _ => true,
    fun _ _ => 1⟩

/-- Oracle whose dimension probe always fails, making every estimate 0. -/
def envNone : Env :=
  ⟨fun _ => true, fun _ => true, fun _ => 0, fun _ => none,
    fun _ => true, fun _ => true, true, fun _ => true, fun _ => true,
    fun _ _ => 1⟩

def jobBig : ImageJob := mkJob envBig inBig outBig

def jobBigDest : ImageJob := mkJob envBigDest inBig outBig

def jobA : ImageJob := ⟨⟨"a.heic", ".heic"⟩, ⟨"a.jpg", ".jpg"⟩, 50⟩

def jobB : ImageJob := ⟨⟨"b.heic", ".heic"⟩, ⟨"b.jpg", ".jpg"⟩, 400⟩

def jobC : ImageJob := ⟨⟨"c.heic", ".heic"⟩, ⟨"c.jpg", ".jpg"⟩, 120⟩

end Heif2Jpeg

namespace Heif2Jpeg

/-- C1 first part: the ceiling formula with its 100 MB floor. -/
theorem budget_floor (memory_budget_mb thread_count : Nat)
    (h : 1 ≤ thread_count) :
    per_worker_ceiling memory_budget_mb thread_count
        = max 100 (memory_budget_mb / thread_count)
      ∧ 100 ≤ per_worker_ceiling memory_budget_mb thread_count
      ∧ per_worker_ceiling 50 4 = 100 ∧ per_worker_ceiling 50 4 ≠ 12 := by
  refine ⟨rfl, ?_, by decide, by decide⟩
  exact le_max_left 100 _

theorem budget_floor_witness :
    (1 ≤ 4)
      ∧ (per_worker_ceiling 50 4 = max 100 (50 / 4)
          ∧ 100 ≤ per_worker_ceiling 50 4
          ∧ per_worker_ceiling 50 4 = 100 ∧ per_worker_ceiling 50 4 ≠ 12) :=
  ⟨by decide, budget_floor 50 4 (by decide)⟩

theorem worker_step_job (p : BatchProcessor) (env : Env) (job : ImageJob) :
    (worker_step p env job).job = job := by
  unfold worker_step
  split <;> rfl

theorem worker_step_limit (p : BatchProcessor) (env : Env) (job : ImageJob) :
    (worker_step p env job).advisory_limit_mb = p.memory_per_thread_mb := by
  unfold worker_step
  split <;> rfl

theorem worker_step_result (p : BatchProcessor) (env : Env) (job : ImageJob) :
    (worker_step p env job).result
      = process_file env job.input_path job.output_path p.quality p.force_overwrite
          p.max_width p.max_height p.memory_per_thread_mb := by
  unfold worker_step
  split <;> rfl

theorem popMin_none_iff (l : List ImageJob) : popMin l = none ↔ l = [] := by
  constructor
  · intro h
    cases l with
    | nil => rfl
    | cons j rest =>
      exfalso
      simp only [popMin] at h
      cases hr : popMin rest with
      | none => simp [hr] at h
      | some pr =>
        obtain ⟨m, r2⟩ := pr
        simp only [hr] at h
        by_cases hle : j.estimated_memory_mb ≤ m.estimated_memory_mb
        · rw [if_pos hle] at h; exact Option.noConfusion h
        · rw [if_neg hle] at h; exact Option.noConfusion h
  · intro h
    subst h
    rfl

theorem popMin_perm {l : List ImageJob} {m : ImageJob} {rest : List ImageJob}
    (h : popMin l = some (m, rest)) : l.Perm (m :: rest) := by
  induction l generalizing m rest with
  | nil => simp [popMin] at h
  | cons j tail ih =>
    simp only [popMin] at h
    cases htail : popMin tail with
    | none =>
      simp only [htail, Option.some.injEq, Prod.mk.injEq] at h
      obtain ⟨rfl, rfl⟩ := h
      have he : tail = [] := (popMin_none_iff tail).mp htail
      subst he
      exact List.Perm.refl _
    | some pr =>
      obtain ⟨m2, r2⟩ := pr
      simp only [htail] at h
      by_cases hle : j.estimated_memory_mb ≤ m2.estimated_memory_mb
      · simp only [if_pos hle, Option.some.injEq, Prod.mk.injEq] at h
        obtain ⟨rfl, rfl⟩ := h
        exact List.Perm.refl _
      · simp only [if_neg hle, Option.some.injEq, Prod.mk.injEq] at h
        obtain ⟨rfl, rfl⟩ := h
        exact ((ih htail).cons j).trans (List.Perm.swap m2 j r2)

theorem popMin_le {l : List ImageJob} {m : ImageJob} {rest : List ImageJob}
    (h : popMin l = some (m, rest)) :
    ∀ x ∈ l, m.estimated_memory_mb ≤ x.estimated_memory_mb := by
  induction l generalizing m rest with
  | nil => simp [popMin] at h
  | cons j tail ih =>
    simp only [popMin] at h
    cases htail : popMin tail with
    | none =>
      simp only [htail, Option.some.injEq, Prod.mk.injEq] at h
      obtain ⟨rfl, rfl⟩ := h
      have he : tail = [] := (popMin_none_iff tail).mp htail
      subst he
      intro x hx
      rw [List.mem_singleton] at hx
      subst hx
      exact le_refl _
    | some pr =>
      obtain ⟨m2, r2⟩ := pr
      simp only [htail] at h
      by_cases hle : j.estimated_memory_mb ≤ m2.estimated_memory_mb
      · simp only [if_pos hle, Option.some.injEq, Prod.mk.injEq] at h
        obtain ⟨rfl, rfl⟩ := h
        intro x hx
        rcases List.mem_cons.mp hx with hx1 | hx2
        · subst hx1; exact le_refl _
        · exact le_trans hle (ih htail x hx2)
      · simp only [if_neg hle, Option.some.injEq, Prod.mk.injEq] at h
        obtain ⟨rfl, rfl⟩ := h
        intro x hx
        rcases List.mem_cons.mp hx with hx1 | hx2
        · subst hx1; exact le_of_lt (not_le.mp hle)
        · exact ih htail x hx2

theorem run_aux_perm (p : BatchProcessor) :
    ∀ (fuel : Nat) (env : Env) (l : List ImageJob), l.length ≤ fuel →
      ((run_aux p fuel env l).1.map TraceEntry.job).Perm l := by
  intro fuel
  induction fuel with
  | zero =>
    intro env l hl
    have he : l = [] := List.length_eq_zero.mp (Nat.le_zero.mp hl)
    subst he
    simp [run_aux]
  | succ n ih =>
    intro env l hl
    cases hpop : popMin l with
    | none =>
      have he : l = [] := (popMin_none_iff l).mp hpop
      subst he
      simp [run_aux, popMin]
    | some pr =>
      obtain ⟨job, rest⟩ := pr
      have hperm := popMin_perm hpop
      have hlen : l.length = rest.length + 1 := by simpa using hperm.length_eq
      simp only [run_aux, hpop, List.map_cons, worker_step_job]
      have hrec := ih
        (Env.after_file env job.input_path job.output_path p.quality
          (worker_step p env job).result) rest (by omega)
      exact (hrec.cons job).trans hperm.symm

theorem run_aux_sorted_lt (p : BatchProcessor) :
    ∀ (fuel : Nat) (env : Env) (l : List ImageJob), l.length ≤ fuel →
      (l.map ImageJob.estimated_memory_mb).Nodup →
      ((run_aux p fuel env l).1.map
          (fun e => e.job.estimated_memory_mb)).Sorted (· < ·) := by
  intro fuel
  induction fuel with
  | zero =>
    intro env l hl hnd
    have he : l = [] := List.length_eq_zero.mp (Nat.le_zero.mp hl)
    subst he
    simp [run_aux]
  | succ n ih =>
    intro env l hl hnd
    cases hpop : popMin l with
    | none =>
      have he : l = [] := (popMin_none_iff l).mp hpop
      subst he
      simp [run_aux, popMin]
    | some pr =>
      obtain ⟨job, rest⟩ := pr
      have hperm := popMin_perm hpop
      have hlen : l.length = rest.length + 1 := by simpa using hperm.length_eq
      have hnd2 : ((job :: rest).map ImageJob.estimated_memory_mb).Nodup :=
        ((hperm.map ImageJob.estimated_memory_mb).nodup_iff).mp hnd
      rw [List.map_cons, List.nodup_cons] at hnd2
      simp only [run_aux, hpop, List.map_cons, worker_step_job]
      rw [List.sorted_cons]
      constructor
      · intro b hb
        obtain ⟨e, he, rfl⟩ := List.mem_map.mp hb
        have hjob : e.job ∈ rest := by
          have hp2 := run_aux_perm p n
            (Env.after_file env job.input_path job.output_path p.quality
              (worker_step p env job).result) rest (by omega)
          exact hp2.mem_iff.mp (List.mem_map_of_mem TraceEntry.job he)
        have hmem_l : e.job ∈ l := hperm.mem_iff.mpr (List.mem_cons_of_mem _ hjob)
        have hle := popMin_le hpop e.job hmem_l
        have hne : job.estimated_memory_mb ≠ e.job.estimated_memory_mb := by
          intro heq
          exact hnd2.1 (heq ▸ List.mem_map_of_mem ImageJob.estimated_memory_mb hjob)
        omega
      · exact ih
          (Env.after_file env job.input_path job.output_path p.quality
            (worker_step p env job).result) rest (by omega) hnd2.2

theorem counters_fold_sum (tr : List TraceEntry) (c : Counters) :
    (tr.foldl (fun c e => c.record e.result.outcome) c).success_count
      + (tr.foldl (fun c e => c.record e.result.outcome) c).fail_count
      + (tr.foldl (fun c e => c.record e.result.outcome) c).skip_count
      = c.success_count + c.fail_count + c.skip_count + tr.length := by
  induction tr generalizing c with
  | nil => simp
  | cons e tl ih =>
    rw [List.foldl_cons, List.length_cons]
    have hrec := ih (c.record e.result.outcome)
    cases ho : e.result.outcome <;>
      simp only [ho, Counters.record] at hrec ⊢ <;> omega

theorem countOutcomes_sum (tr : List TraceEntry) :
    (countOutcomes tr).success_count + (countOutcomes tr).fail_count
      + (countOutcomes tr).skip_count = tr.length := by
  have h := counters_fold_sum tr ⟨0, 0, 0⟩
  simpa [countOutcomes] using h

/-- C3: for every non-empty queue — tied costs included — pop removes and
returns a job of minimal estimated cost (in particular one that the source
comparison `ImageJob.lt` places below no other pending job), leaving exactly
the rest; and for any job set with pairwise-distinct estimated costs, the
single-worker dequeued cost sequence is strictly increasing. -/
theorem pop_min_and_cost_order (p : BatchProcessor) (env : Env)
    (l : List ImageJob) (hne : l ≠ []) :
    (∃ m rest, popMin l = some (m, rest)
        ∧ l.Perm (m :: rest)
        ∧ (∀ x ∈ l, m.estimated_memory_mb ≤ x.estimated_memory_mb)
        ∧ (∀ x ∈ l, ImageJob.lt m x = false))
      ∧ (∀ l2 : List ImageJob, (l2.map ImageJob.estimated_memory_mb).Nodup →
          ((process_all p env l2).1.map
              (fun e => e.job.estimated_memory_mb)).Sorted (· < ·)) := by
  constructor
  · cases hpop : popMin l with
    | none => exact absurd ((popMin_none_iff l).mp hpop) hne
    | some pr =>
      obtain ⟨m, rest⟩ := pr
      refine ⟨m, rest, rfl, popMin_perm hpop, popMin_le hpop, ?_⟩
      intro x hx
      have hle := popMin_le hpop x hx
      simp only [ImageJob.lt, gt_iff_lt, decide_eq_false_iff_not, not_lt]
      exact hle
  · intro l2 hdist
    exact run_aux_sorted_lt p l2.length env l2 (le_refl _) hdist

theorem pop_min_and_cost_order_witness :
    ([jobA, jobB, jobC] ≠ [])
      ∧ ((∃ m rest, popMin [jobA, jobB, jobC] = some (m, rest)
            ∧ ([jobA, jobB, jobC]).Perm (m :: rest)
            ∧ (∀ x ∈ [jobA, jobB, jobC],
                m.estimated_memory_mb ≤ x.estimated_memory_mb)
            ∧ (∀ x ∈ [jobA, jobB, jobC], ImageJob.lt m x = false))
          ∧ (∀ l2 : List ImageJob, (l2.map ImageJob.estimated_memory_mb).Nodup →
              ((process_all pOne envNone l2).1.map
                  (fun e => e.job.estimated_memory_mb)).Sorted (· < ·))) :=
  ⟨by decide, pop_min_and_cost_order pOne envNone [jobA, jobB, jobC] (by decide)⟩

/-- C4: every enqueued job is processed exactly once (the trace of processed
jobs is a permutation of the queue, with matching multiplicities), each
processed job bumps exactly one counter, and the three final counters sum to
the number of enqueued jobs. -/
theorem exactly_once_and_counter_sum (p : BatchProcessor) (env : Env)
    (l : List ImageJob) :
    ((process_all p env l).1.map TraceEntry.job).Perm l
      ∧ (∀ j : ImageJob,
          ((process_all p env l).1.map TraceEntry.job).count j = l.count j)
      ∧ (countOutcomes (process_all p env l).1).success_count
          + (countOutcomes (process_all p env l).1).fail_count
          + (countOutcomes (process_all p env l).1).skip_count = l.length := by
  have hperm := run_aux_perm p l.length env l (le_refl _)
  refine ⟨hperm, fun j => hperm.count_eq j, ?_⟩
  have h1 := countOutcomes_sum (process_all p env l).1
  have h2 : (process_all p env l).1.length = l.length := by
    simpa using hperm.length_eq
  omega

/-- C5: a job whose estimated cost exceeds the per-worker ceiling is not
dropped: the worker still invokes `process_file` for it, exactly once over a
run, with the per-worker ceiling (not the job estimate) as the advisory
memory limit. -/
theorem best_effort_admission (p : BatchProcessor) (env : Env) (job : ImageJob)
    (h : p.memory_per_thread_mb < job.estimated_memory_mb) :
    (worker_step p env job).advisory_limit_mb = p.memory_per_thread_mb
      ∧ (worker_step p env job).result
          = process_file env job.input_path job.output_path p.quality
              p.force_overwrite p.max_width p.max_height p.memory_per_thread_mb
      ∧ ∀ (env2 : Env) (l : List ImageJob),
          ((process_all p env2 l).1.map TraceEntry.job).count job = l.count job := by
  refine ⟨worker_step_limit p env job, worker_step_result p env job, ?_⟩
  intro env2 l
  exact (run_aux_perm p l.length env2 l (le_refl _)).count_eq job

theorem best_effort_admission_witness :
    pZero.memory_per_thread_mb < jobBig.estimated_memory_mb
      ∧ ((worker_step pZero envBig jobBig).advisory_limit_mb
            = pZero.memory_per_thread_mb
          ∧ (worker_step pZero envBig jobBig).result
              = process_file envBig jobBig.input_path jobBig.output_path
                  pZero.quality pZero.force_overwrite pZero.max_width
                  pZero.max_height pZero.memory_per_thread_mb
          ∧ ∀ (env2 : Env) (l : List ImageJob),
              ((process_all pZero env2 l).1.map TraceEntry.job).count jobBig
                = l.count jobBig) :=
  ⟨by decide, best_effort_admission pZero envBig jobBig (by decide)⟩

/-- C7: with `force_overwrite = false` and an existing destination (and an
existing regular source), the job is recorded skipped, the conversion step
is never invoked, the filesystem state — in particular the destination
content — is unchanged, and a second identical run is again recorded
skipped. -/
theorem idempotent_skip (env : Env) (inp outp : Path) (q mw mh mm : Nat)
    (hin : env.file_exists inp = true)
    (hreg : env.is_regular_file inp = true)
    (hout : env.file_exists outp = true) :
    (process_file env inp outp q false mw mh mm).outcome = Outcome.skipped
      ∧ (process_file env inp outp q false mw mh mm).convert_invoked = false
      ∧ Env.after_file env inp outp q
          (process_file env inp outp q false mw mh mm) = env
      ∧ (Env.after_file env inp outp q
            (process_file env inp outp q false mw mh mm)).content outp
          = env.content outp
      ∧ (process_file
            (Env.after_file env inp outp q
              (process_file env inp outp q false mw mh mm))
            inp outp q false mw mh mm).outcome = Outcome.skipped := by
  have hres : process_file env inp outp q false mw mh mm
      = ⟨Outcome.skipped, false, none⟩ := by
    unfold process_file
    by_cases hext : is_heif_ext inp.ext <;> simp [hin, hreg, hout, hext]
  rw [hres]
  refine ⟨rfl, rfl, rfl, rfl, ?_⟩
  show (process_file env inp outp q false mw mh mm).outcome = Outcome.skipped
  rw [hres]

theorem idempotent_skip_witness :
    (envBigDest.file_exists inBig = true
        ∧ envBigDest.is_regular_file inBig = true
        ∧ envBigDest.file_exists outBig = true)
      ∧ ((process_file envBigDest inBig outBig 95 false 0 0 100).outcome
            = Outcome.skipped
          ∧ (process_file envBigDest inBig outBig 95 false 0 0 100).convert_invoked
              = false
          ∧ Env.after_file envBigDest inBig outBig 95
              (process_file envBigDest inBig outBig 95 false 0 0 100) = envBigDest
          ∧ (Env.after_file envBigDest inBig outBig 95
                (process_file envBigDest inBig outBig 95 false 0 0 100)).content outBig
              = envBigDest.content outBig
          ∧ (process_file
                (Env.after_file envBigDest inBig outBig 95
                  (process_file envBigDest inBig outBig 95 false 0 0 100))
                inBig outBig 95 false 0 0 100).outcome = Outcome.skipped) :=
  ⟨⟨by decide, by decide, by decide⟩,
    idempotent_skip envBigDest inBig outBig 95 0 0 100
      (by decide) (by decide) (by decide)⟩

/-- C10: after a completed batch run the exit code is 1 exactly when the
failed counter is positive, and 0 whenever it is zero — skipped jobs alone
never make it non-zero. -/
theorem exit_code_iff_failures (p : BatchProcessor) (env : Env)
    (l : List ImageJob) :
    (main_exit_code (countOutcomes (process_all p env l).1) = 1
        ↔ 0 < (countOutcomes (process_all p env l).1).fail_count)
      ∧ ((countOutcomes (process_all p env l).1).fail_count = 0 →
          main_exit_code (countOutcomes (process_all p env l).1) = 0) := by
  rcases Nat.eq_zero_or_pos (countOutcomes (process_all p env l).1).fail_count
    with hz | hp2
  · constructor
    · simp [main_exit_code, hz]
    · intro h0
      simp [main_exit_code, hz]
  · constructor
    · simp [main_exit_code, hp2]
    · intro h0
      omega

theorem nat_add_pred_div_cast (a b : Nat) (hb : 0 < b) :
    (((a + (b - 1)) / b : Nat) : ℤ) = ⌈(a : ℚ) / (b : ℚ)⌉ := by
  have hbq : (0 : ℚ) < (b : ℚ) := by exact_mod_cast hb
  have hdm := Nat.div_add_mod (a + (b - 1)) b
  have hmlt : (a + (b - 1)) % b < b := Nat.mod_lt _ hb
  set n := (a + (b - 1)) / b with hn
  set r := (a + (b - 1)) % b with hr
  have hub : a ≤ b * n := by omega
  have hlb : b * n < a + b := by omega
  have h1 : (b : ℚ) * (n : ℚ) < (a : ℚ) + (b : ℚ) := by exact_mod_cast hlb
  have h2 : (a : ℚ) ≤ (b : ℚ) * (n : ℚ) := by exact_mod_cast hub
  rw [eq_comm, Int.ceil_eq_iff]
  constructor
  · rw [lt_div_iff₀ hbq]
    push_cast
    nlinarith
  · rw [div_le_iff₀ hbq]
    push_cast
    nlinarith

/-- C6: for readable dimensions the estimator returns exactly
ceil(1.5 * (w*h*3 + w*h*4 + 10*1024*1024) / (1024*1024)) MB; when the
artifact cannot be opened or yields no primary handle it returns 0; and a
zero-cost source is never refused by the advisory-memory check of the
conversion step. -/
theorem cost_estimator_spec (env : Env) (image_path : Path) (w h : Nat)
    (hp : env.probe_dims image_path = some (w, h)) :
    ((estimate_memory_requirement env image_path : ℤ)
        = ⌈(1.5 : ℚ) * (((w * h * 3 : Nat) : ℚ) + ((w * h * 4 : Nat) : ℚ)
              + 10 * 1024 * 1024) / (1024 * 1024)⌉)
      ∧ (∀ (env2 : Env) (p2 : Path),
          env2.probe_dims p2 = none → estimate_memory_requirement env2 p2 = 0)
      ∧ (∀ (env2 : Env) (src dst : Path) (q mw mh lim : Nat),
          estimate_memory_requirement env2 src = 0 →
          (convert_heif_to_jpeg env2 src dst q mw mh lim).reason
            ≠ some ConvFail.mem_budget) := by
  refine ⟨?_, ?_, ?_⟩
  · simp only [estimate_memory_requirement, hp]
    have hdef : estimate_from_dims w h
        = (3 * (w * h * 3 + w * h * 4 + 10 * 1024 * 1024)
            + (2 * (1024 * 1024) - 1)) / (2 * (1024 * 1024)) := rfl
    rw [hdef, nat_add_pred_div_cast _ _ (by norm_num)]
    congr 1
    push_cast
    norm_num
    ring
  · intro env2 p2 hnone
    simp [estimate_memory_requirement, hnone]
  · intro env2 src dst q mw mh lim hz
    have hcond : (decide (0 < lim)
        && decide (lim < estimate_memory_requirement env2 src)) = false := by
      rw [hz]
      simp
    simp only [convert_heif_to_jpeg, hcond]
    repeat' split
    all_goals simp_all

theorem convert_over_budget (env : Env) (src dst : Path) (q mw mh lim : Nat)
    (hlim : 0 < lim) (hest : lim < estimate_memory_requirement env src) :
    (convert_heif_to_jpeg env src dst q mw mh lim)
        = ⟨some ConvFail.dimension, false, false⟩
      ∨ (convert_heif_to_jpeg env src dst q mw mh lim)
        = ⟨some ConvFail.mem_budget, false, false⟩ := by
  unfold convert_heif_to_jpeg
  split
  · exact Or.inl rfl
  · right
    have hc : (decide (0 < lim)
        && decide (lim < estimate_memory_requirement env src)) = true := by
      simp [hlim, hest]
    simp [hc]

theorem process_file_over_budget (env : Env) (inp outp : Path) (q : Nat)
    (f : Bool) (mw mh lim : Nat)
    (hin : env.file_exists inp = true)
    (hreg : env.is_regular_file inp = true)
    (hext : is_heif_ext inp.ext = true)
    (hout : (env.file_exists outp && !f) = false)
    (hlim : 0 < lim)
    (hest : lim < estimate_memory_requirement env inp) :
    (process_file env inp outp q f mw mh lim).outcome = Outcome.failed
      ∧ (∃ cr : ConvResult, (process_file env inp outp q f mw mh lim).conv = some cr
          ∧ cr.decoded = false ∧ cr.ok = false) := by
  have hpf : process_file env inp outp q f mw mh lim
      = ⟨if (convert_heif_to_jpeg env inp outp q mw mh lim).ok = true
            then Outcome.success else Outcome.failed, true,
          some (convert_heif_to_jpeg env inp outp q mw mh lim)⟩ := by
    unfold process_file
    simp [hin, hreg, hext, hout]
  rcases convert_over_budget env inp outp q mw mh lim hlim hest with hcv | hcv <;>
    rw [hpf, hcv] <;> exact ⟨rfl, _, rfl, rfl, rfl⟩

theorem cost_estimator_spec_witness :
    envBig.probe_dims inBig = some (10000, 10000)
      ∧ (((estimate_memory_requirement envBig inBig : ℤ)
            = ⌈(1.5 : ℚ) * (((10000 * 10000 * 3 : Nat) : ℚ)
                  + ((10000 * 10000 * 4 : Nat) : ℚ) + 10 * 1024 * 1024)
                / (1024 * 1024)⌉)
          ∧ (∀ (env2 : Env) (p2 : Path),
              env2.probe_dims p2 = none → estimate_memory_requirement env2 p2 = 0)
          ∧ (∀ (env2 : Env) (src dst : Path) (q mw mh lim : Nat),
              estimate_memory_requirement env2 src = 0 →
              (convert_heif_to_jpeg env2 src dst q mw mh lim).reason
                ≠ some ConvFail.mem_budget)) :=
  ⟨by decide, cost_estimator_spec envBig inBig 10000 10000 (by decide)⟩

/-- C2 counterexample: with total budget 0 the run is not unbounded.  For a
job estimated at 1017 MB the ceiling becomes 100, the worker performs the
admission comparison, passes the positive advisory limit 100 downstream,
and the conversion refuses the job for budget reasons — while the very same
conversion invoked with advisory limit 0 succeeds.  So with budget 0 the
memory estimate does influence the conversion, contrary to the claim. -/
theorem zero_budget_cex :
    pZero.memory_per_thread_mb = 100
      ∧ jobBig.estimated_memory_mb > pZero.memory_per_thread_mb
      ∧ (worker_step pZero envBig jobBig).advisory_limit_mb = 100
      ∧ (worker_step pZero envBig jobBig).result.outcome = Outcome.failed
      ∧ (worker_step pZero envBig jobBig).result.conv
          = some ⟨some ConvFail.mem_budget, false, false⟩
      ∧ (convert_heif_to_jpeg envBig inBig outBig 95 0 0 0).reason = none :=
  ⟨by decide, by decide, by decide, by decide, by decide, by decide⟩

/-- C2 amended: a total budget of 0 is not treated as unbounded — the
per-worker ceiling is max(100, 0 / worker_count) = 100, the worker still
performs the admission comparison and passes 100 as the advisory limit, and
a job that reaches the conversion step with an estimate above 100 MB is
refused and recorded as failed. -/
theorem zero_budget_still_checked (q : Nat) (f : Bool) (mw mh tc : Nat)
    (env : Env) (job : ImageJob)
    (htc : 1 ≤ tc)
    (hin : env.file_exists job.input_path = true)
    (hreg : env.is_regular_file job.input_path = true)
    (hext : is_heif_ext job.input_path.ext = true)
    (hout : (env.file_exists job.output_path && !f) = false)
    (hest : 100 < estimate_memory_requirement env job.input_path) :
    (BatchProcessor.make q f mw mh 0 tc).memory_per_thread_mb = 100
      ∧ (worker_step (BatchProcessor.make q f mw mh 0 tc) env job).advisory_limit_mb
          = 100
      ∧ (worker_step (BatchProcessor.make q f mw mh 0 tc) env job).result.outcome
          = Outcome.failed := by
  have hceil : (BatchProcessor.make q f mw mh 0 tc).memory_per_thread_mb = 100 := by
    show per_worker_ceiling 0 tc = 100
    unfold per_worker_ceiling
    rw [Nat.zero_div]
    simp
  refine ⟨hceil, ?_, ?_⟩
  · rw [worker_step_limit, hceil]
  · rw [worker_step_result]
    refine (process_file_over_budget env job.input_path job.output_path _ _ _ _ _
      hin hreg hext hout ?_ ?_).1
    · rw [hceil]
      norm_num
    · rw [hceil]
      exact hest

theorem zero_budget_still_checked_witness :
    (1 ≤ 1
        ∧ envBig.file_exists jobBig.input_path = true
        ∧ envBig.is_regular_file jobBig.input_path = true
        ∧ is_heif_ext jobBig.input_path.ext = true
        ∧ (envBig.file_exists jobBig.output_path && !false) = false
        ∧ 100 < estimate_memory_requirement envBig jobBig.input_path)
      ∧ ((BatchProcessor.make 95 false 0 0 0 1).memory_per_thread_mb = 100
          ∧ (worker_step (BatchProcessor.make 95 false 0 0 0 1) envBig
                jobBig).advisory_limit_mb = 100
          ∧ (worker_step (BatchProcessor.make 95 false 0 0 0 1) envBig
                jobBig).result.outcome = Outcome.failed) :=
  ⟨⟨by decide, by decide, by decide, by decide, by decide, by decide⟩,
    zero_budget_still_checked 95 false 0 0 1 envBig jobBig
      (by decide) (by decide) (by decide) (by decide) (by decide) (by decide)⟩

/-- C8 counterexample: a job whose source is missing and has an
unrecognized extension, while its destination exists without overwrite
permission, satisfies the claim's skip condition but is recorded failed. -/
theorem skip_taxonomy_cex :
    is_heif_ext txtIn.ext = false
      ∧ envMissing.file_exists outBig = true
      ∧ (process_file envMissing txtIn outBig 95 false 0 0 100).outcome
          = Outcome.failed
      ∧ (process_file envMissing txtIn outBig 95 false 0 0 100).outcome
          ≠ Outcome.skipped :=
  ⟨by decide, by decide, by decide, by decide⟩

/-- C8 amended: a job is recorded skipped exactly when its source exists
and is a regular file and (its extension is not .heic/.heif
case-insensitively, or its destination exists without overwrite
permission); a missing or non-regular source is recorded failed even when a
skip condition also holds, as is any job whose conversion step fails
(dimension limit, decode, encode, I/O); the run continues with exactly one
processing attempt per job and no retry. -/
theorem skip_taxonomy (env : Env) (inp outp : Path) (q : Nat) (f : Bool)
    (mw mh mm : Nat) :
    ((process_file env inp outp q f mw mh mm).outcome = Outcome.skipped
        ↔ (env.file_exists inp = true ∧ env.is_regular_file inp = true
            ∧ (is_heif_ext inp.ext = false
                ∨ (env.file_exists outp = true ∧ f = false))))
      ∧ ((process_file env inp outp q f mw mh mm).outcome = Outcome.failed
        ↔ (env.file_exists inp = false ∨ env.is_regular_file inp = false
            ∨ (is_heif_ext inp.ext = true
                ∧ ¬(env.file_exists outp = true ∧ f = false)
                ∧ (convert_heif_to_jpeg env inp outp q mw mh mm).ok = false)))
      ∧ (∀ (p : BatchProcessor) (l : List ImageJob),
          (process_all p env l).1.length = l.length) := by
  refine ⟨?_, ?_, ?_⟩
  · cases hA : env.file_exists inp <;>
      cases hB : env.is_regular_file inp <;>
      cases hE : is_heif_ext inp.ext <;>
      cases hD : env.file_exists outp <;>
      cases hf : f <;>
      cases hCV : (convert_heif_to_jpeg env inp outp q mw mh mm).ok <;>
      simp [process_file, hA, hB, hE, hD, hCV]
  · cases hA : env.file_exists inp <;>
      cases hB : env.is_regular_file inp <;>
      cases hE : is_heif_ext inp.ext <;>
      cases hD : env.file_exists outp <;>
      cases hf : f <;>
      cases hCV : (convert_heif_to_jpeg env inp outp q mw mh mm).ok <;>
      simp [process_file, hA, hB, hE, hD, hCV]
  · intro p l
    have hperm := run_aux_perm p l.length env l (le_refl _)
    simpa using hperm.length_eq

/-- C9 counterexample: a job whose estimate (1017 MB) exceeds the ceiling
(100 MB) but whose destination already exists is recorded skipped, not
failed, and the conversion step is never invoked for it — contrary to the
claim that every over-ceiling job is refused inside the conversion step and
counted as failed. -/
theorem over_ceiling_refused_cex :
    jobBigDest.estimated_memory_mb > pZero.memory_per_thread_mb
      ∧ (worker_step pZero envBigDest jobBigDest).result.outcome = Outcome.skipped
      ∧ (worker_step pZero envBigDest jobBigDest).result.outcome ≠ Outcome.failed
      ∧ (worker_step pZero envBigDest jobBigDest).result.convert_invoked = false :=
  ⟨by decide, by decide, by decide, by decide⟩

/-- C9 amended: the worker always passes the per-worker ceiling (at least
100, hence positive) as the advisory limit, and every job that reaches the
conversion step (source exists and is regular, recognized extension,
destination absent or overwrite forced) whose fresh estimate exceeds that
limit is refused inside `convert_heif_to_jpeg` before any decoding and
recorded as failed. -/
theorem over_ceiling_refused_before_decode (q : Nat) (f : Bool)
    (mw mh budget tc : Nat) (env : Env) (job : ImageJob)
    (hin : env.file_exists job.input_path = true)
    (hreg : env.is_regular_file job.input_path = true)
    (hext : is_heif_ext job.input_path.ext = true)
    (hout : (env.file_exists job.output_path && !f) = false)
    (hest : (BatchProcessor.make q f mw mh budget tc).memory_per_thread_mb
        < estimate_memory_requirement env job.input_path) :
    100 ≤ (worker_step (BatchProcessor.make q f mw mh budget tc) env
              job).advisory_limit_mb
      ∧ (worker_step (BatchProcessor.make q f mw mh budget tc) env
            job).result.outcome = Outcome.failed
      ∧ (∃ cr : ConvResult,
          (worker_step (BatchProcessor.make q f mw mh budget tc) env
              job).result.conv = some cr
            ∧ cr.decoded = false ∧ cr.ok = false) := by
  have h100 : 100 ≤ (BatchProcessor.make q f mw mh budget tc).memory_per_thread_mb := by
    show 100 ≤ max 100 (budget / tc)
    exact le_max_left 100 _
  have hlim : 0 < (BatchProcessor.make q f mw mh budget tc).memory_per_thread_mb :=
    lt_of_lt_of_le (by norm_num) h100
  have hmain := process_file_over_budget env job.input_path job.output_path
    (BatchProcessor.make q f mw mh budget tc).quality
    (BatchProcessor.make q f mw mh budget tc).force_overwrite
    (BatchProcessor.make q f mw mh budget tc).max_width
    (BatchProcessor.make q f mw mh budget tc).max_height
    (BatchProcessor.make q f mw mh budget tc).memory_per_thread_mb
    hin hreg hext hout hlim hest
  refine ⟨?_, ?_, ?_⟩
  · rw [worker_step_limit]
    exact h100
  · rw [worker_step_result]
    exact hmain.1
  · rw [worker_step_result]
    exact hmain.2

theorem over_ceiling_refused_before_decode_witness :
    (envBig.file_exists jobBig.input_path = true
        ∧ envBig.is_regular_file jobBig.input_path = true
        ∧ is_heif_ext jobBig.input_path.ext = true
        ∧ (envBig.file_exists jobBig.output_path && !false) = false
        ∧ (BatchProcessor.make 95 false 0 0 0 1).memory_per_thread_mb
            < estimate_memory_requirement envBig jobBig.input_path)
      ∧ (100 ≤ (worker_step (BatchProcessor.make 95 false 0 0 0 1) envBig
                  jobBig).advisory_limit_mb
          ∧ (worker_step (BatchProcessor.make 95 false 0 0 0 1) envBig
                jobBig).result.outcome = Outcome.failed
          ∧ (∃ cr : ConvResult,
              (worker_step (BatchProcessor.make 95 false 0 0 0 1) envBig
                  jobBig).result.conv = some cr
                ∧ cr.decoded = false ∧ cr.ok = false)) :=
  ⟨⟨by decide, by decide, by decide, by decide, by decide⟩,
    over_ceiling_refused_before_decode 95 false 0 0 0 1 envBig jobBig
      (by decide) (by decide) (by decide) (by decide) (by decide)⟩

end Heif2Jpeg
